import Mathlib

/-!
Shallow embedding of the patient-report segmentation core of the
medical-report-processor repository, covering:

* `MetadataExtractor._cleanValue`   (field normalization)
* `MetadataExtractor._extractFromKeyValuePairs` (per-field structured probe)
* `DocumentSplitter._cleanPatientValue`, `_extractPatientInfo`,
  `_extractFromTables`, `_isDifferentPatient`, `_finalizeReport`,
  `_validateReports`, `splitIntoPatientReports`.

Modelling conventions:
* A JavaScript string value is a Lean `String`; `null`/`undefined` is `none`
  of an `Option String`.  JS truthiness of a string is "non-empty".
* A key/value object is an association list `List (String × String)` with
  first-match lookup (source objects have unique keys).
* A table row is a `List (Option String)`; `none` models a hole left by the
  sparse row construction in `TextractService._extractTables` (the only
  producer of tables in the repository), whose filled cells are strings.
* Character classes follow the ASCII reading of the JS regexes: `\w` is
  `[A-Za-z0-9_]`, `\s` is whitespace; `trim` strips whitespace from both
  ends.
* `createdAt` (a wall-clock timestamp) is not represented; no claim
  mentions it.
* Thrown `Error`s are modelled with `Except String`, carrying the exact
  message string of the `throw` site.
-/

/-- ASCII reading of the JS regex class `\w` = `[A-Za-z0-9_]`. -/
def isWordChar (c : Char) : Bool :=
  c.isAlpha || c.isDigit || c == '_'

/-- Characters kept by `replace(/[^\w\s-]/g, '')`: word chars, whitespace, hyphen. -/
def keepNameChar (c : Char) : Bool :=
  isWordChar c || c.isWhitespace || c == '-'

/-- JS `String.prototype.trim`: strip whitespace from both ends. -/
def jsTrim (s : String) : String :=
  (((s.toList.dropWhile Char.isWhitespace).reverse.dropWhile Char.isWhitespace).reverse).asString

/-- JS `s.replace(/[^\w\s-]/g, '')`. -/
def stripNonNameChars (s : String) : String :=
  (s.toList.filter keepNameChar).asString

/-- JS `s.replace(/[^\w]/g, '')`. -/
def stripNonWordChars (s : String) : String :=
  (s.toList.filter isWordChar).asString

/-- JS regex test `/^\d+$/`: non-empty and all digits. -/
def isAllDigits (s : String) : Bool :=
  !s.isEmpty && s.toList.all Char.isDigit

/-- JS regex test `/\d/`: contains a digit. -/
def hasDigit (s : String) : Bool :=
  s.toList.any Char.isDigit

/-- JS truthiness of a nullable string: non-null and non-empty. -/
def jsTruthy (o : Option String) : Bool :=
  match o with
  | none => false
  | some s => !s.isEmpty

/-- JS `pat ⊆ s` substring test (`String.prototype.includes`). -/
def jsIncludes (s pat : String) : Bool :=
  decide (pat.toList <:+: s.toList)

/-- The three logical identity fields of `MetadataExtractor.fieldMappings`. -/
inductive FieldKind where
  | name
  | dob
  | patientId
deriving DecidableEq, Repr

namespace MetadataExtractor

/-- Translation of `MetadataExtractor._cleanValue(value, field)`.  The JS
guard rejecting null and non-string inputs keeps only truthy strings; in
this typed embedding the input is always a string, so the guard reduces to
the empty-string test. -/
def cleanValue (value : String) (field : FieldKind) : Option String :=
  if value.isEmpty then none
  else
    let cleaned := jsTrim value
    match field with
    | .name =>
      let cleaned := jsTrim (stripNonNameChars cleaned)
      if cleaned.length < 2 || isAllDigits cleaned then none else some cleaned
    | .dob =>
      if !hasDigit cleaned || cleaned.length < 6 then none else some cleaned
    | .patientId =>
      let cleaned := stripNonWordChars cleaned
      if cleaned.length < 3 then none else some cleaned

/-- Alias lists of `MetadataExtractor.fieldMappings`. -/
def fieldMappings (field : FieldKind) : List String :=
  match field with
  | .name => ["patient name", "name", "patient", "full name", "patient full name"]
  | .dob => ["dob", "date of birth", "birth date", "birthdate", "patient dob"]
  | .patientId =>
      ["patient id", "id", "patient #", "patient number", "mrn",
       "medical record number", "account", "accession", "medical record no",
       "patient identifier", "chart number"]

/-- The inner loop of `MetadataExtractor._extractFromKeyValuePairs` for one
field whose metadata slot is still `null`: take the first alias whose key
holds a truthy value, normalize it, and stop (`break`) whether or not the
normalized result is valid. -/
def probeKeyValuePairs (kvs : List (String × String)) (keys : List String)
    (field : FieldKind) : Option String :=
  match keys with
  | [] => none
  | k :: rest =>
    match kvs.lookup k with
    | some v => if v.isEmpty then probeKeyValuePairs kvs rest field
                else cleanValue v field
    | none => probeKeyValuePairs kvs rest field

end MetadataExtractor

namespace DocumentSplitter

/-- One table of a page: `rows` may be `null` (checked by
`if (!table.rows) return`). -/
structure TableData where
  rows : Option (List (List (Option String)))
deriving Repr, DecidableEq

/-- One element of the `pageDataArray` handed to `splitIntoPatientReports`.
`keyValuePairs` and `tables` may each be `null`/absent. Fields of the JS
object not consulted by the splitter (`text`, `confidence`, `bytes`,
`rawBlocks`) are omitted. -/
structure PageData where
  index : Nat
  keyValuePairs : Option (List (String × String))
  tables : Option (List TableData)
deriving Repr, DecidableEq

/-- The mutable `patientInfo` record of `_extractPatientInfo`. -/
structure PatientInfo where
  name : Option String
  patientId : Option String
  dob : Option String
deriving Repr, DecidableEq

/-- Translation of `DocumentSplitter._cleanPatientValue` on a string input:
`value.trim().replace(/[^\w\s-]/g, '').trim()`.  (Its `null`/non-string
guard is unreachable here: every call site passes a truthy string.) -/
def cleanPatientValue (value : String) : String :=
  jsTrim (stripNonNameChars (jsTrim value))

/-- An alias loop of `_extractPatientInfo` over `keyValuePairs`: first key
with a truthy value wins and is cleaned; `break` stops the probe there. -/
def probeClean (kvs : List (String × String)) (keys : List String) : Option String :=
  match keys with
  | [] => none
  | k :: rest =>
    match kvs.lookup k with
    | some v => if v.isEmpty then probeClean kvs rest
                else some (cleanPatientValue v)
    | none => probeClean kvs rest

/-- Alias lists used by `_extractPatientInfo` for key/value probing. -/
def kvNameKeys : List String := ["patient name", "name", "patient", "full name"]

def kvIdKeys : List String :=
  ["patient id", "id", "mrn", "medical record number", "patient #", "account"]

def kvDobKeys : List String := ["dob", "date of birth", "birth date", "birthdate"]

/-- Alias lists used by `_extractFromTables`. -/
def tblNameKeys : List String := ["patient name", "name", "patient"]

def tblIdKeys : List String := ["patient id", "id", "mrn", "medical record"]

def tblDobKeys : List String := ["dob", "date of birth", "birth date"]

/-- The expression `row[index + 1] || cell.split(':')[1]` — the candidate value cell:
the next row slot if truthy, else the second `:`-segment of the cell text
(`undefined` when there is no `:`). -/
def valueCellOf (row : List (Option String)) (i : Nat) (cell : String) : Option String :=
  let colonPart := (cell.splitOn ":").get? 1
  match row.get? (i + 1) with
  | some (some v) => if v.isEmpty then colonPart else some v
  | _ => colonPart

/-- One guarded field update of `_extractFromTables`: fires only when the
field is still falsy, some alias occurs in the lowercased cell, and the
value cell is truthy and differs (trimmed) from the lowercased cell. -/
def tableFieldUpdate (keys : List String) (row : List (Option String)) (i : Nat)
    (cellLower : String) (cur : Option String) : Option String :=
  if jsTruthy cur then cur
  else if keys.any (fun k => jsIncludes cellLower k) then
    match valueCellOf row i cellLower with
    | some v => if !v.isEmpty && jsTrim v != cellLower then some (cleanPatientValue v) else cur
    | none => cur
  else cur

/-- Processing of one cell by `_extractFromTables` (skips holes and empty
strings; then checks name, id, dob in order against the shared record). -/
def tableCellStep (info : PatientInfo) (row : List (Option String)) (i : Nat)
    (cell : Option String) : PatientInfo :=
  match cell with
  | none => info
  | some c =>
    if c.isEmpty then info
    else
      let cl := c.toLower
      let info := { info with name := tableFieldUpdate tblNameKeys row i cl info.name }
      let info := { info with patientId := tableFieldUpdate tblIdKeys row i cl info.patientId }
      { info with dob := tableFieldUpdate tblDobKeys row i cl info.dob }

/-- The loop `row.forEach((cell, index) => ...)` of `_extractFromTables`. -/
def tableRowStep (info : PatientInfo) (row : List (Option String)) : PatientInfo :=
  (row.enum).foldl (fun acc ic => tableCellStep acc row ic.1 ic.2) info

/-- Translation of `DocumentSplitter._extractFromTables(tables, patientInfo)`. -/
def extractFromTables (tables : List TableData) (info : PatientInfo) : PatientInfo :=
  tables.foldl
    (fun acc t =>
      match t.rows with
      | none => acc
      | some rows => rows.foldl tableRowStep acc)
    info

/-- The `patientInfo` record as it stands after the key/value phase of
`_extractPatientInfo` (all three alias loops; `keyValuePairs` may be null). -/
def kvPhase (p : PageData) : PatientInfo :=
  match p.keyValuePairs with
  | none => ⟨none, none, none⟩
  | some kvs => ⟨probeClean kvs kvNameKeys, probeClean kvs kvIdKeys, probeClean kvs kvDobKeys⟩

/-- The `patientInfo` record after the optional table-fallback phase:
`if ((!patientInfo.name || !patientInfo.patientId) && tables && tables.length > 0)`. -/
def rawPatientInfo (p : PageData) : PatientInfo :=
  let info := kvPhase p
  match p.tables with
  | some tables =>
      if (!jsTruthy info.name || !jsTruthy info.patientId) && tables.length > 0 then
        extractFromTables tables info
      else info
  | none => info

/-- Translation of `DocumentSplitter._extractPatientInfo(pageData)`: `null` when neither a
truthy name nor a truthy patientId was found. -/
def extractPatientInfo (pd : Option PageData) : Option PatientInfo :=
  match pd with
  | none => none
  | some p =>
    let info := rawPatientInfo p
    if !jsTruthy info.name && !jsTruthy info.patientId then none
    else some info

/-- Translation of `DocumentSplitter._isDifferentPatient(currentPatient, newPatient)`. -/
def isDifferentPatient (currentPatient newPatient : Option PatientInfo) : Bool :=
  match currentPatient with
  | none => newPatient.isSome
  | some c =>
    match newPatient with
    | none => false
    | some n =>
      if jsTruthy c.patientId && jsTruthy n.patientId then c.patientId != n.patientId
      else if jsTruthy c.name && jsTruthy n.name then c.name != n.name
      else if jsTruthy c.dob && jsTruthy n.dob then c.dob != n.dob
      else false

/-- The record built by `DocumentSplitter._finalizeReport` (minus the
wall-clock `createdAt`). -/
structure Report where
  reportIndex : Nat
  pages : List PageData
  pageCount : Nat
  firstPageIndex : Nat
  lastPageIndex : Nat
  hasPatientData : Bool
deriving Repr, DecidableEq

/-- Translation of `DocumentSplitter._finalizeReport(pages, reportIndex)`.  In JS,
`pages[0]?.index || 0` equals the first page's index (a missing page and an
index of `0` both give `0`); likewise for the last page. -/
def finalizeReport (pages : List PageData) (reportIndex : Nat) : Report :=
  { reportIndex := reportIndex
    pages := pages
    pageCount := pages.length
    firstPageIndex := match pages.head? with | some p => p.index | none => 0
    lastPageIndex := match pages.getLast? with | some p => p.index | none => 0
    hasPatientData := pages.any (fun p => (extractPatientInfo (some p)).isSome) }

/-- The loop state of `splitIntoPatientReports`: emitted reports, the pages
of the report being accumulated, and the current patient anchor. -/
structure SplitState where
  reports : List Report
  current : List PageData
  currentPatientInfo : Option PatientInfo
deriving Repr, DecidableEq

/-- Lines 22–35 of the loop body: extract the page's candidate, emit the
current group on an identity split (when the group is non-empty), or seed
the very first anchor. -/
def stepIdentity (st : SplitState) (pd : PageData) : SplitState :=
  if isDifferentPatient st.currentPatientInfo (extractPatientInfo (some pd)) = true ∧
      st.current ≠ [] then
    ⟨st.reports ++ [finalizeReport st.current st.reports.length], [],
     extractPatientInfo (some pd)⟩
  else if st.currentPatientInfo = none ∧ extractPatientInfo (some pd) ≠ none then
    ⟨st.reports, st.current, extractPatientInfo (some pd)⟩
  else st

/-- Lines 37–45 of the loop body: push the page, then the safety valve —
emit and fully reset (anchor included) when the group reaches the cap. -/
def stepSafety (maxPagesPerPatient : Nat) (st1 : SplitState) (pd : PageData) : SplitState :=
  if maxPagesPerPatient ≤ (st1.current ++ [pd]).length then
    ⟨st1.reports ++ [finalizeReport (st1.current ++ [pd]) st1.reports.length], [], none⟩
  else ⟨st1.reports, st1.current ++ [pd], st1.currentPatientInfo⟩

/-- The body of the `for (const [index, pageData] of pageDataArray.entries())`
loop of `splitIntoPatientReports` for one page. -/
def stepPage (maxPagesPerPatient : Nat) (st : SplitState) (pd : PageData) : SplitState :=
  stepSafety maxPagesPerPatient (stepIdentity st pd) pd

/-- The whole page loop of `splitIntoPatientReports`. -/
def runPages (maxPagesPerPatient : Nat) (st : SplitState) (pages : List PageData) : SplitState :=
  pages.foldl (stepPage maxPagesPerPatient) st

/-- The report list after the loop and the trailing
`if (current.length > 0) reports.push(...)` flush. -/
def flushReports (st : SplitState) : List Report :=
  if st.current ≠ [] then st.reports ++ [finalizeReport st.current st.reports.length]
  else st.reports

/-- Translation of `DocumentSplitter._validateReports(reports)`: drop empty-page reports;
error when nothing remains. -/
def validateReports (reports : List Report) : Except String (List Report) :=
  let validR := reports.filter (fun r => !r.pages.isEmpty)
  if validR.isEmpty then Except.error "No valid reports found after splitting"
  else Except.ok validR

/-- Translation of `DocumentSplitter.splitIntoPatientReports(pageDataArray)` (the `null`
array case of `!pageDataArray` coincides with the empty case here). -/
def splitIntoPatientReports (maxPagesPerPatient : Nat) (pages : List PageData) :
    Except String (List Report) :=
  if pages.isEmpty then Except.error "No page data provided for splitting"
  else validateReports (flushReports (runPages maxPagesPerPatient ⟨[], [], none⟩ pages))

end DocumentSplitter

/-- The decision rule exactly as claim C3 words it, reading "non-null"
literally as `Option.isSome` (so an empty string counts as a present
field).  This is the spec-side definition used to compare against the
source's `_isDifferentPatient`. -/
def claimNonNullDifferent (currentPatient newPatient :
    Option DocumentSplitter.PatientInfo) : Bool :=
  match currentPatient with
  | none => newPatient.isSome
  | some c =>
    match newPatient with
    | none => false
    | some n =>
      if c.patientId.isSome && n.patientId.isSome then c.patientId != n.patientId
      else if c.name.isSome && n.name.isSome then c.name != n.name
      else if c.dob.isSome && n.dob.isSome then c.dob != n.dob
      else false

/-- A surfaced field is `null` or a string built by `_cleanPatientValue`,
hence containing only word characters, whitespace and hyphens. -/
def cleanedField (o : Option String) : Prop :=
  ∀ s, o = some s → ∀ c ∈ s.toList, keepNameChar c = true

/-- The invariant carried through `_extractFromTables`. -/
def cleanedInfo (info : DocumentSplitter.PatientInfo) : Prop :=
  cleanedField info.name ∧ cleanedField info.patientId ∧ cleanedField info.dob

/-- Concatenation of the member pages of a report list, in emission order. -/
def pagesOf (rs : List DocumentSplitter.Report) : List DocumentSplitter.PageData :=
  (rs.map DocumentSplitter.Report.pages).flatten

/-- Every report a state ever holds has a non-empty page list. -/
def reportsNonempty (rs : List DocumentSplitter.Report) : Prop :=
  ∀ r ∈ rs, r.pages ≠ []

/-- The size/bookkeeping invariant carried through the loop. -/
def reportsBounded (m : Nat) (rs : List DocumentSplitter.Report) : Prop :=
  ∀ r ∈ rs, 1 ≤ r.pageCount ∧ r.pageCount ≤ m ∧ r.pageCount = r.pages.length

/-! ### Helper lemmas about the string primitives -/

theorem jsTrim_sublist (s : String) : (jsTrim s).toList.Sublist s.toList := by
  unfold jsTrim
  rw [List.toList_asString]
  have h1 : (s.toList.dropWhile Char.isWhitespace).Sublist s.toList :=
    List.dropWhile_sublist _
  have h2 : (((s.toList.dropWhile Char.isWhitespace).reverse.dropWhile
      Char.isWhitespace)).Sublist (s.toList.dropWhile Char.isWhitespace).reverse :=
    List.dropWhile_sublist _
  have h3 := h2.reverse
  rw [List.reverse_reverse] at h3
  exact h3.trans h1

theorem jsTrim_mem {s : String} {c : Char} (h : c ∈ (jsTrim s).toList) : c ∈ s.toList :=
  (jsTrim_sublist s).subset h

theorem stripNonNameChars_mem {s : String} {c : Char}
    (h : c ∈ (stripNonNameChars s).toList) : keepNameChar c = true := by
  unfold stripNonNameChars at h
  rw [List.toList_asString] at h
  exact (List.mem_filter.mp h).2

theorem cleanPatientValue_chars (v : String) :
    ∀ c ∈ (DocumentSplitter.cleanPatientValue v).toList, keepNameChar c = true := by
  intro c hc
  unfold DocumentSplitter.cleanPatientValue at hc
  exact stripNonNameChars_mem (jsTrim_mem hc)

/-! ### C7: the normalization contract of `MetadataExtractor._cleanValue` -/

theorem ifBool_none_some_iff {α : Type} (b : Bool) (t s : α) :
    (if b = true then (none : Option α) else some t) = some s ↔ (b = false ∧ t = s) := by
  cases b <;> simp

/-- C7: `_cleanValue` is total (never raises) and returns `some`/`none`
exactly as the spec describes: for `name` it yields the trimmed,
stripped-to-word/space/hyphen value unless that is shorter than 2 or all
digits; for `dob` it yields the trimmed value unless it has no digit or is
shorter than 6; for `patientId` it yields the value stripped to word
characters unless that is shorter than 3. -/
theorem cleanValue_contract (v : String) :
    (∀ s, MetadataExtractor.cleanValue v .name = some s ↔
      (s = jsTrim (stripNonNameChars (jsTrim v)) ∧ 2 ≤ s.length ∧ isAllDigits s = false)) ∧
    (∀ s, MetadataExtractor.cleanValue v .dob = some s ↔
      (s = jsTrim v ∧ hasDigit s = true ∧ 6 ≤ s.length)) ∧
    (∀ s, MetadataExtractor.cleanValue v .patientId = some s ↔
      (s = stripNonWordChars (jsTrim v) ∧ 3 ≤ s.length)) := by
  by_cases hv : v.isEmpty = true
  · have hv' : v = "" := (String.isEmpty_iff v).mp hv
    subst hv'
    refine ⟨fun s => ?_, fun s => ?_, fun s => ?_⟩
    · constructor
      · intro h; exact Option.noConfusion h
      · rintro ⟨rfl, h2, _⟩; exact absurd h2 (by decide)
    · constructor
      · intro h; exact Option.noConfusion h
      · rintro ⟨rfl, h2, _⟩; exact absurd h2 (by decide)
    · constructor
      · intro h; exact Option.noConfusion h
      · rintro ⟨rfl, h2⟩; exact absurd h2 (by decide)
  · refine ⟨fun s => ?_, fun s => ?_, fun s => ?_⟩ <;>
      simp only [MetadataExtractor.cleanValue, if_neg hv]
    · rw [ifBool_none_some_iff]
      constructor
      · rintro ⟨hb, rfl⟩
        rw [Bool.or_eq_false_iff, decide_eq_false_iff_not] at hb
        exact ⟨rfl, by omega, hb.2⟩
      · rintro ⟨rfl, h2, h3⟩
        refine ⟨?_, rfl⟩
        rw [Bool.or_eq_false_iff, decide_eq_false_iff_not]
        exact ⟨by omega, h3⟩
    · rw [ifBool_none_some_iff]
      constructor
      · rintro ⟨hb, rfl⟩
        rw [Bool.or_eq_false_iff, Bool.not_eq_false', decide_eq_false_iff_not] at hb
        exact ⟨rfl, hb.1, by omega⟩
      · rintro ⟨rfl, h2, h3⟩
        refine ⟨?_, rfl⟩
        rw [Bool.or_eq_false_iff, Bool.not_eq_false', decide_eq_false_iff_not]
        exact ⟨h2, by omega⟩
    · by_cases hc : (stripNonWordChars (jsTrim v)).length < 3
      · rw [if_pos hc]
        constructor
        · intro h; exact Option.noConfusion h
        · rintro ⟨h1, h2⟩; rw [h1] at h2; exact absurd h2 (by omega)
      · rw [if_neg hc]
        constructor
        · intro h
          have hs : s = stripNonWordChars (jsTrim v) := (Option.some.inj h).symm
          refine ⟨hs, ?_⟩
          rw [hs]
          omega
        · rintro ⟨rfl, _⟩; rfl

/-! ### C3: the split-decision precedence of `_isDifferentPatient` -/


/-- C3 counterexample: an anchor whose `patientId` is the empty string
(producible by `_cleanPatientValue`, e.g. from a raw value of `"!!!"`) and
a candidate with a real `patientId`.  Both ids are non-null, and they
differ, so the claim's rule demands a split; the code compares JS
truthiness, skips the falsy id pair, falls through to the equal names and
answers `false`. -/
theorem isDifferentPatient_claimC3_counterexample :
    DocumentSplitter.isDifferentPatient
      (some ⟨some "AB", some "", none⟩) (some ⟨some "AB", some "X12", none⟩) = false ∧
    claimNonNullDifferent
      (some ⟨some "AB", some "", none⟩) (some ⟨some "AB", some "X12", none⟩) = true := by
  exact ⟨rfl, rfl⟩

/-- C3 amended: `_isDifferentPatient` implements the claimed precedence
with every "non-null" strengthened to "truthy" (non-null and non-empty):
no anchor means "different iff a candidate is present"; no candidate means
"not different"; otherwise truthy patientIds are compared first and are
authoritative, then truthy names, then truthy dobs, else not different. -/
theorem isDifferentPatient_precedence :
    (∀ o, DocumentSplitter.isDifferentPatient none o = o.isSome) ∧
    (∀ c, DocumentSplitter.isDifferentPatient (some c) none = false) ∧
    (∀ c n, DocumentSplitter.isDifferentPatient (some c) (some n) = true ↔
      (((jsTruthy c.patientId && jsTruthy n.patientId) = true ∧ c.patientId ≠ n.patientId) ∨
       ((jsTruthy c.patientId && jsTruthy n.patientId) = false ∧
        (jsTruthy c.name && jsTruthy n.name) = true ∧ c.name ≠ n.name) ∨
       ((jsTruthy c.patientId && jsTruthy n.patientId) = false ∧
        (jsTruthy c.name && jsTruthy n.name) = false ∧
        (jsTruthy c.dob && jsTruthy n.dob) = true ∧ c.dob ≠ n.dob))) := by
  refine ⟨fun o => rfl, fun c => rfl, fun c n => ?_⟩
  simp only [DocumentSplitter.isDifferentPatient]
  by_cases h1 : (jsTruthy c.patientId && jsTruthy n.patientId) = true
  · rw [if_pos h1]
    simp [h1, bne_iff_ne]
  · have h1' : (jsTruthy c.patientId && jsTruthy n.patientId) = false := by
      rwa [Bool.not_eq_true] at h1
    rw [if_neg h1]
    by_cases h2 : (jsTruthy c.name && jsTruthy n.name) = true
    · rw [if_pos h2]
      simp [h1', h2, bne_iff_ne]
    · have h2' : (jsTruthy c.name && jsTruthy n.name) = false := by
        rwa [Bool.not_eq_true] at h2
      rw [if_neg h2]
      by_cases h3 : (jsTruthy c.dob && jsTruthy n.dob) = true
      · rw [if_pos h3]
        simp [h1', h2', h3, bne_iff_ne]
      · have h3' : (jsTruthy c.dob && jsTruthy n.dob) = false := by
          rwa [Bool.not_eq_true] at h3
        rw [if_neg h3]
        simp [h1', h2', h3']

/-! ### C5: what `_extractPatientInfo` guarantees about surfaced fields -/


theorem cleanedField_none : cleanedField none := fun _ h => Option.noConfusion h

theorem cleanedField_clean (v : String) :
    cleanedField (some (DocumentSplitter.cleanPatientValue v)) := by
  intro s h c hc
  rw [← Option.some.inj h] at hc
  exact cleanPatientValue_chars v c hc

theorem probeClean_cleanedField (kvs : List (String × String)) (keys : List String) :
    cleanedField (DocumentSplitter.probeClean kvs keys) := by
  induction keys with
  | nil => exact cleanedField_none
  | cons k rest ih =>
    intro s h
    unfold DocumentSplitter.probeClean at h
    cases hk : kvs.lookup k with
    | none => rw [hk] at h; exact ih s h
    | some v =>
      rw [hk] at h
      have h' : (if v.isEmpty = true then DocumentSplitter.probeClean kvs rest
          else some (DocumentSplitter.cleanPatientValue v)) = some s := h
      by_cases hv : v.isEmpty = true
      · rw [if_pos hv] at h'; exact ih s h'
      · rw [if_neg hv] at h'; exact cleanedField_clean v s h'

theorem tableFieldUpdate_cleanedField (keys : List String) (row : List (Option String))
    (i : Nat) (cl : String) (cur : Option String) (h : cleanedField cur) :
    cleanedField (DocumentSplitter.tableFieldUpdate keys row i cl cur) := by
  unfold DocumentSplitter.tableFieldUpdate
  by_cases h1 : jsTruthy cur = true
  · rw [if_pos h1]; exact h
  · rw [if_neg h1]
    by_cases h2 : keys.any (fun k => jsIncludes cl k) = true
    · rw [if_pos h2]
      cases hv : DocumentSplitter.valueCellOf row i cl with
      | none => exact h
      | some v =>
        show cleanedField (if (!v.isEmpty && jsTrim v != cl) = true
          then some (DocumentSplitter.cleanPatientValue v) else cur)
        by_cases h3 : (!v.isEmpty && jsTrim v != cl) = true
        · rw [if_pos h3]; exact cleanedField_clean v
        · rw [if_neg h3]; exact h
    · rw [if_neg h2]; exact h


theorem foldl_preserve {α β : Type} (P : α → Prop) (f : α → β → α)
    (hf : ∀ a b, P a → P (f a b)) :
    ∀ (l : List β) (a : α), P a → P (List.foldl f a l) := by
  intro l
  induction l with
  | nil => exact fun a ha => ha
  | cons x xs ih => exact fun a ha => ih _ (hf a x ha)

theorem tableCellStep_cleanedInfo (info : DocumentSplitter.PatientInfo)
    (row : List (Option String)) (i : Nat) (cell : Option String)
    (h : cleanedInfo info) :
    cleanedInfo (DocumentSplitter.tableCellStep info row i cell) := by
  unfold DocumentSplitter.tableCellStep
  cases cell with
  | none => exact h
  | some c =>
    show cleanedInfo (if c.isEmpty = true then info else _)
    by_cases hc : c.isEmpty = true
    · rw [if_pos hc]; exact h
    · rw [if_neg hc]
      exact ⟨tableFieldUpdate_cleanedField _ _ _ _ _ h.1,
             tableFieldUpdate_cleanedField _ _ _ _ _ h.2.1,
             tableFieldUpdate_cleanedField _ _ _ _ _ h.2.2⟩

theorem extractFromTables_cleanedInfo (tables : List DocumentSplitter.TableData)
    (info : DocumentSplitter.PatientInfo) (h : cleanedInfo info) :
    cleanedInfo (DocumentSplitter.extractFromTables tables info) := by
  unfold DocumentSplitter.extractFromTables
  refine foldl_preserve _ _ ?_ tables info h
  intro acc t ha
  cases t.rows with
  | none => exact ha
  | some rows =>
    refine foldl_preserve _ _ ?_ rows acc ha
    intro a row hr
    unfold DocumentSplitter.tableRowStep
    refine foldl_preserve _ _ ?_ row.enum a hr
    intro a' ic h'
    exact tableCellStep_cleanedInfo a' row ic.1 ic.2 h'

theorem rawPatientInfo_cleanedInfo (p : DocumentSplitter.PageData) :
    cleanedInfo (DocumentSplitter.rawPatientInfo p) := by
  have hkv : cleanedInfo (DocumentSplitter.kvPhase p) := by
    unfold DocumentSplitter.kvPhase
    cases p.keyValuePairs with
    | none => exact ⟨cleanedField_none, cleanedField_none, cleanedField_none⟩
    | some kvs =>
      exact ⟨probeClean_cleanedField kvs _, probeClean_cleanedField kvs _,
             probeClean_cleanedField kvs _⟩
  unfold DocumentSplitter.rawPatientInfo
  cases p.tables with
  | none => exact hkv
  | some tables =>
    show cleanedInfo (if ((!jsTruthy (DocumentSplitter.kvPhase p).name ||
        !jsTruthy (DocumentSplitter.kvPhase p).patientId) && decide (tables.length > 0)) = true
      then DocumentSplitter.extractFromTables tables (DocumentSplitter.kvPhase p)
      else DocumentSplitter.kvPhase p)
    by_cases hc : ((!jsTruthy (DocumentSplitter.kvPhase p).name ||
        !jsTruthy (DocumentSplitter.kvPhase p).patientId) && decide (tables.length > 0)) = true
    · rw [if_pos hc]; exact extractFromTables_cleanedInfo tables _ hkv
    · rw [if_neg hc]; exact hkv

/-- C5 counterexample: `_extractPatientInfo` surfaces a purely numeric name
(`"123"`), and, when a truthy patientId is present, even an empty-string
name (cleaned from `"!!!"`): the FieldNormalizer checks of
`MetadataExtractor._cleanValue` are not applied on this path. -/
theorem extractPatientInfo_claimC5_counterexample :
    DocumentSplitter.extractPatientInfo
      (some ⟨5, some [("name", "123")], none⟩) = some ⟨some "123", none, none⟩ ∧
    isAllDigits "123" = true ∧
    DocumentSplitter.extractPatientInfo
      (some ⟨6, some [("name", "!!!"), ("patient id", "ABC")], none⟩) =
      some ⟨some "", some "ABC", none⟩ := by
  exact ⟨rfl, rfl, rfl⟩

/-- C5 amended: every field of a candidate surfaced by
`_extractPatientInfo` is either null or a string containing only word
characters, whitespace and hyphens (the residue of `_cleanPatientValue`);
empty or purely numeric values can be surfaced, because the splitter's
cleaning applies no validity check. -/
theorem extractPatientInfo_fields_cleaned (pd : Option DocumentSplitter.PageData)
    (info : DocumentSplitter.PatientInfo)
    (h : DocumentSplitter.extractPatientInfo pd = some info) :
    cleanedField info.name ∧ cleanedField info.patientId ∧ cleanedField info.dob := by
  cases pd with
  | none => exact Option.noConfusion h
  | some p =>
    unfold DocumentSplitter.extractPatientInfo at h
    have h' : (if (!jsTruthy (DocumentSplitter.rawPatientInfo p).name &&
        !jsTruthy (DocumentSplitter.rawPatientInfo p).patientId) = true then none
        else some (DocumentSplitter.rawPatientInfo p)) = some info := h
    by_cases hc : (!jsTruthy (DocumentSplitter.rawPatientInfo p).name &&
        !jsTruthy (DocumentSplitter.rawPatientInfo p).patientId) = true
    · rw [if_pos hc] at h'; exact Option.noConfusion h'
    · rw [if_neg hc] at h'
      rw [← Option.some.inj h']
      exact rawPatientInfo_cleanedInfo p

/-- Witness for the amended C5 at a concrete page. -/
theorem extractPatientInfo_fields_cleaned_witness :
    cleanedField (some "John") ∧ cleanedField none ∧ cleanedField none :=
  extractPatientInfo_fields_cleaned
    (some ⟨0, some [("name", "John")], none⟩) ⟨some "John", none, none⟩ rfl

/-! ### C9: no candidate without a name or patientId anchor -/

/-- C9: when neither a truthy name nor a truthy patientId was resolved by
the key/value probe and the table fallback, `_extractPatientInfo` returns
no candidate at all — the dob field is not consulted by this guard, so a
resolved dob does not rescue the candidate. -/
theorem extractPatientInfo_none_without_anchor (p : DocumentSplitter.PageData)
    (h1 : jsTruthy (DocumentSplitter.rawPatientInfo p).name = false)
    (h2 : jsTruthy (DocumentSplitter.rawPatientInfo p).patientId = false) :
    DocumentSplitter.extractPatientInfo (some p) = none := by
  show (if (!jsTruthy (DocumentSplitter.rawPatientInfo p).name &&
      !jsTruthy (DocumentSplitter.rawPatientInfo p).patientId) = true then none
      else some (DocumentSplitter.rawPatientInfo p)) = none
  rw [h1, h2]
  rfl

/-- Witness for C9: a page carrying only a dob yields no candidate even
though its dob was resolved. -/
theorem extractPatientInfo_none_without_anchor_witness :
    (DocumentSplitter.rawPatientInfo ⟨9, some [("dob", "1990-01-02")], none⟩).dob =
      some "1990-01-02" ∧
    DocumentSplitter.extractPatientInfo (some ⟨9, some [("dob", "1990-01-02")], none⟩) = none :=
  ⟨rfl, extractPatientInfo_none_without_anchor _ rfl rfl⟩

/-! ### C8: first match wins, not first valid match -/

theorem probeKeyValuePairs_first_match (kvs : List (String × String)) :
    ∀ (keys1 : List String) (k v : String) (keys2 : List String) (field : FieldKind),
      (∀ k' ∈ keys1, jsTruthy (kvs.lookup k') = false) →
      kvs.lookup k = some v → v.isEmpty = false →
      MetadataExtractor.probeKeyValuePairs kvs (keys1 ++ k :: keys2) field =
        MetadataExtractor.cleanValue v field := by
  intro keys1
  induction keys1 with
  | nil =>
    intro k v keys2 field _ hk hv
    show MetadataExtractor.probeKeyValuePairs kvs (k :: keys2) field = _
    unfold MetadataExtractor.probeKeyValuePairs
    rw [hk]
    show (if v.isEmpty = true then MetadataExtractor.probeKeyValuePairs kvs keys2 field
      else MetadataExtractor.cleanValue v field) = _
    rw [hv]
    rfl
  | cons k0 rest ih =>
    intro k v keys2 field hpre hk hv
    have h0 : jsTruthy (kvs.lookup k0) = false := hpre k0 (List.mem_cons_self k0 rest)
    show MetadataExtractor.probeKeyValuePairs kvs (k0 :: (rest ++ k :: keys2)) field = _
    unfold MetadataExtractor.probeKeyValuePairs
    cases hl : kvs.lookup k0 with
    | none => exact ih k v keys2 field (fun k' h' => hpre k' (List.mem_cons_of_mem _ h')) hk hv
    | some v0 =>
      rw [hl] at h0
      have h0' : v0.isEmpty = true := by
        simp only [jsTruthy, Bool.not_eq_false'] at h0
        exact h0
      show (if v0.isEmpty = true then
        MetadataExtractor.probeKeyValuePairs kvs (rest ++ k :: keys2) field
        else MetadataExtractor.cleanValue v0 field) = _
      rw [if_pos h0']
      exact ih k v keys2 field (fun k' h' => hpre k' (List.mem_cons_of_mem _ h')) hk hv

theorem probeClean_first_match (kvs : List (String × String)) :
    ∀ (keys1 : List String) (k v : String) (keys2 : List String),
      (∀ k' ∈ keys1, jsTruthy (kvs.lookup k') = false) →
      kvs.lookup k = some v → v.isEmpty = false →
      DocumentSplitter.probeClean kvs (keys1 ++ k :: keys2) =
        some (DocumentSplitter.cleanPatientValue v) := by
  intro keys1
  induction keys1 with
  | nil =>
    intro k v keys2 _ hk hv
    show DocumentSplitter.probeClean kvs (k :: keys2) = _
    unfold DocumentSplitter.probeClean
    rw [hk]
    show (if v.isEmpty = true then DocumentSplitter.probeClean kvs keys2
      else some (DocumentSplitter.cleanPatientValue v)) = _
    rw [hv]
    rfl
  | cons k0 rest ih =>
    intro k v keys2 hpre hk hv
    have h0 : jsTruthy (kvs.lookup k0) = false := hpre k0 (List.mem_cons_self k0 rest)
    show DocumentSplitter.probeClean kvs (k0 :: (rest ++ k :: keys2)) = _
    unfold DocumentSplitter.probeClean
    cases hl : kvs.lookup k0 with
    | none => exact ih k v keys2 (fun k' h' => hpre k' (List.mem_cons_of_mem _ h')) hk hv
    | some v0 =>
      rw [hl] at h0
      have h0' : v0.isEmpty = true := by
        simp only [jsTruthy, Bool.not_eq_false'] at h0
        exact h0
      show (if v0.isEmpty = true then DocumentSplitter.probeClean kvs (rest ++ k :: keys2)
        else some (DocumentSplitter.cleanPatientValue v0)) = _
      rw [if_pos h0']
      exact ih k v keys2 (fun k' h' => hpre k' (List.mem_cons_of_mem _ h')) hk hv

/-- C8: in both probing loops, the first alias (in configured order) whose
key holds a non-empty value decides the field: its value is normalized and
the loop stops there, regardless of whether the normalized result is
valid, and independently of every later alias. -/
theorem structured_probe_first_match_wins :
    (∀ (kvs : List (String × String)) (keys1 : List String) (k v : String)
        (keys2 : List String) (field : FieldKind),
      (∀ k' ∈ keys1, jsTruthy (kvs.lookup k') = false) →
      kvs.lookup k = some v → v.isEmpty = false →
      MetadataExtractor.probeKeyValuePairs kvs (keys1 ++ k :: keys2) field =
        MetadataExtractor.cleanValue v field) ∧
    (∀ (kvs : List (String × String)) (keys1 : List String) (k v : String)
        (keys2 : List String),
      (∀ k' ∈ keys1, jsTruthy (kvs.lookup k') = false) →
      kvs.lookup k = some v → v.isEmpty = false →
      DocumentSplitter.probeClean kvs (keys1 ++ k :: keys2) =
        some (DocumentSplitter.cleanPatientValue v)) :=
  ⟨fun kvs => probeKeyValuePairs_first_match kvs, fun kvs => probeClean_first_match kvs⟩

/-- Witness for C8: in `["patient name" ↦ "", "name" ↦ "1", "patient" ↦
"John Doe"]`, the `name` probe stops at the alias `"name"` whose value
normalizes to invalid, yielding `none` even though the later alias
`"patient"` holds a valid value; the splitter's probe likewise stops at
`"name"`. -/
theorem structured_probe_first_match_wins_witness :
    MetadataExtractor.probeKeyValuePairs
      [("patient name", ""), ("name", "1"), ("patient", "John Doe")]
      (MetadataExtractor.fieldMappings .name) .name = none ∧
    MetadataExtractor.cleanValue "John Doe" .name = some "John Doe" ∧
    DocumentSplitter.probeClean
      [("patient name", ""), ("name", "1"), ("patient", "John Doe")]
      DocumentSplitter.kvNameKeys = some "1" := by
  refine ⟨?_, rfl, ?_⟩
  · have h := structured_probe_first_match_wins.1
      [("patient name", ""), ("name", "1"), ("patient", "John Doe")]
      ["patient name"] "name" "1" ["patient", "full name", "patient full name"] .name
      (by decide) rfl rfl
    exact h.trans rfl
  · have h := structured_probe_first_match_wins.2
      [("patient name", ""), ("name", "1"), ("patient", "John Doe")]
      ["patient name"] "name" "1" ["patient", "full name"]
      (by decide) rfl rfl
    exact h.trans rfl

/-! ### C4: the forced split resets the anchor -/

/-- C4: (1) when the page just appended makes the current group reach
`maxPagesPerPatient` (and no identity split fired this step), the loop
emits the grown group immediately and resets both the accumulator and the
anchor — the anchor becomes absent, not the last seen candidate; (2) from
such a reset state, a page presenting any identity `c` is treated as a
fresh "first patient": it seeds a brand-new group `[pd]` with anchor `c`,
leaving every previously emitted report untouched. -/
theorem stepPage_forced_split_resets :
    (∀ (m : Nat) (st : DocumentSplitter.SplitState) (pd : DocumentSplitter.PageData),
      DocumentSplitter.isDifferentPatient st.currentPatientInfo
        (DocumentSplitter.extractPatientInfo (some pd)) = false →
      m ≤ st.current.length + 1 →
      DocumentSplitter.stepPage m st pd =
        ⟨st.reports ++ [DocumentSplitter.finalizeReport (st.current ++ [pd])
            st.reports.length], [], none⟩) ∧
    (∀ (m : Nat) (rs : List DocumentSplitter.Report) (pd : DocumentSplitter.PageData)
        (c : DocumentSplitter.PatientInfo),
      DocumentSplitter.extractPatientInfo (some pd) = some c → 2 ≤ m →
      DocumentSplitter.stepPage m ⟨rs, [], none⟩ pd = ⟨rs, [pd], some c⟩) := by
  constructor
  · intro m st pd hdiff hm
    obtain ⟨rs, cur, anchor⟩ := st
    have hlen : m ≤ (cur ++ [pd]).length := by
      rw [List.length_append, List.length_singleton]
      exact hm
    have hm' : m ≤ cur.length + 1 := hm
    cases anchor with
    | none =>
      cases hx : DocumentSplitter.extractPatientInfo (some pd) with
      | some c =>
        have hdiff' : DocumentSplitter.isDifferentPatient none
            (DocumentSplitter.extractPatientInfo (some pd)) = false := hdiff
        rw [hx] at hdiff'
        exact absurd hdiff' (by simp [DocumentSplitter.isDifferentPatient])
      | none =>
        simp [DocumentSplitter.stepPage, DocumentSplitter.stepIdentity,
          DocumentSplitter.stepSafety, DocumentSplitter.isDifferentPatient, hx, hm']
    | some a =>
      have hdiff' : DocumentSplitter.isDifferentPatient (some a)
          (DocumentSplitter.extractPatientInfo (some pd)) = false := hdiff
      simp [DocumentSplitter.stepPage, DocumentSplitter.stepIdentity,
        DocumentSplitter.stepSafety, hdiff', hm']
  · intro m rs pd c hc hm
    have hm1 : ¬m ≤ 1 := by omega
    simp [DocumentSplitter.stepPage, DocumentSplitter.stepIdentity,
      DocumentSplitter.stepSafety, DocumentSplitter.isDifferentPatient, hc, hm1]

/-- Witness for C4 at concrete states and pages. -/
theorem stepPage_forced_split_resets_witness :
    DocumentSplitter.stepPage 1 ⟨[], [], none⟩ ⟨0, none, none⟩ =
      ⟨[DocumentSplitter.finalizeReport [⟨0, none, none⟩] 0], [], none⟩ ∧
    DocumentSplitter.stepPage 2 ⟨[], [], none⟩ ⟨1, some [("name", "John")], none⟩ =
      ⟨[], [⟨1, some [("name", "John")], none⟩], some ⟨some "John", none, none⟩⟩ := by
  constructor
  · exact stepPage_forced_split_resets.1 1 ⟨[], [], none⟩ ⟨0, none, none⟩ rfl (by decide)
  · exact stepPage_forced_split_resets.2 2 [] ⟨1, some [("name", "John")], none⟩
      ⟨some "John", none, none⟩ rfl (by decide)

/-! ### Loop invariants of `splitIntoPatientReports` -/


theorem pagesOf_append (rs ts : List DocumentSplitter.Report) :
    pagesOf (rs ++ ts) = pagesOf rs ++ pagesOf ts := by
  unfold pagesOf
  rw [List.map_append, List.flatten_append]

theorem pagesOf_single (pages : List DocumentSplitter.PageData) (i : Nat) :
    pagesOf [DocumentSplitter.finalizeReport pages i] = pages := by
  simp [pagesOf, DocumentSplitter.finalizeReport]

/-- The identity phase only moves pages between accumulator and reports. -/
theorem stepIdentity_pages (st : DocumentSplitter.SplitState)
    (pd : DocumentSplitter.PageData) :
    pagesOf (DocumentSplitter.stepIdentity st pd).reports ++
      (DocumentSplitter.stepIdentity st pd).current =
    pagesOf st.reports ++ st.current := by
  unfold DocumentSplitter.stepIdentity
  by_cases h1 : DocumentSplitter.isDifferentPatient st.currentPatientInfo
      (DocumentSplitter.extractPatientInfo (some pd)) = true ∧ st.current ≠ []
  · rw [if_pos h1]
    simp [pagesOf_append, pagesOf_single]
  · rw [if_neg h1]
    by_cases h0 : st.currentPatientInfo = none ∧
        DocumentSplitter.extractPatientInfo (some pd) ≠ none
    · rw [if_pos h0]
    · rw [if_neg h0]

/-- The push/safety phase appends exactly the visited page. -/
theorem stepSafety_pages (m : Nat) (st1 : DocumentSplitter.SplitState)
    (pd : DocumentSplitter.PageData) :
    pagesOf (DocumentSplitter.stepSafety m st1 pd).reports ++
      (DocumentSplitter.stepSafety m st1 pd).current =
    (pagesOf st1.reports ++ st1.current) ++ [pd] := by
  unfold DocumentSplitter.stepSafety
  by_cases h2 : m ≤ (st1.current ++ [pd]).length
  · rw [if_pos h2]
    simp [pagesOf_append, pagesOf_single, List.append_assoc]
  · rw [if_neg h2]
    simp [List.append_assoc]

/-- One step of the page loop appends exactly the visited page to the
pages accounted for by the state. -/
theorem stepPage_pages (m : Nat) (st : DocumentSplitter.SplitState)
    (pd : DocumentSplitter.PageData) :
    pagesOf (DocumentSplitter.stepPage m st pd).reports ++
      (DocumentSplitter.stepPage m st pd).current =
    (pagesOf st.reports ++ st.current) ++ [pd] := by
  unfold DocumentSplitter.stepPage
  rw [stepSafety_pages, stepIdentity_pages]

/-- The page loop appends exactly the visited pages. -/
theorem runPages_pages (m : Nat) :
    ∀ (pages : List DocumentSplitter.PageData) (st : DocumentSplitter.SplitState),
    pagesOf (DocumentSplitter.runPages m st pages).reports ++
      (DocumentSplitter.runPages m st pages).current =
    (pagesOf st.reports ++ st.current) ++ pages := by
  intro pages
  induction pages with
  | nil => intro st; simp [DocumentSplitter.runPages]
  | cons pd rest ih =>
    intro st
    show pagesOf (DocumentSplitter.runPages m (DocumentSplitter.stepPage m st pd) rest).reports ++
      (DocumentSplitter.runPages m (DocumentSplitter.stepPage m st pd) rest).current = _
    rw [ih (DocumentSplitter.stepPage m st pd), stepPage_pages]
    simp [List.append_assoc]

theorem flushReports_pages (st : DocumentSplitter.SplitState) :
    pagesOf (DocumentSplitter.flushReports st) = pagesOf st.reports ++ st.current := by
  unfold DocumentSplitter.flushReports
  by_cases h : st.current ≠ []
  · rw [if_pos h, pagesOf_append, pagesOf_single]
  · rw [if_neg h]
    push_neg at h
    rw [h]
    simp


theorem stepIdentity_nonempty (st : DocumentSplitter.SplitState)
    (pd : DocumentSplitter.PageData) (h : reportsNonempty st.reports) :
    reportsNonempty (DocumentSplitter.stepIdentity st pd).reports := by
  unfold DocumentSplitter.stepIdentity
  by_cases h1 : DocumentSplitter.isDifferentPatient st.currentPatientInfo
      (DocumentSplitter.extractPatientInfo (some pd)) = true ∧ st.current ≠ []
  · rw [if_pos h1]
    intro r hr
    simp only [List.mem_append, List.mem_singleton] at hr
    rcases hr with hr | hr
    · exact h r hr
    · rw [hr]; exact h1.2
  · rw [if_neg h1]
    by_cases h0 : st.currentPatientInfo = none ∧
        DocumentSplitter.extractPatientInfo (some pd) ≠ none
    · rw [if_pos h0]; exact h
    · rw [if_neg h0]; exact h

theorem stepSafety_nonempty (m : Nat) (st1 : DocumentSplitter.SplitState)
    (pd : DocumentSplitter.PageData) (h : reportsNonempty st1.reports) :
    reportsNonempty (DocumentSplitter.stepSafety m st1 pd).reports := by
  unfold DocumentSplitter.stepSafety
  by_cases h2 : m ≤ (st1.current ++ [pd]).length
  · rw [if_pos h2]
    intro r hr
    simp only [List.mem_append, List.mem_singleton] at hr
    rcases hr with hr | hr
    · exact h r hr
    · rw [hr]; simp [DocumentSplitter.finalizeReport]
  · rw [if_neg h2]
    exact h

theorem stepPage_nonempty (m : Nat) (st : DocumentSplitter.SplitState)
    (pd : DocumentSplitter.PageData) (h : reportsNonempty st.reports) :
    reportsNonempty (DocumentSplitter.stepPage m st pd).reports :=
  stepSafety_nonempty m _ pd (stepIdentity_nonempty st pd h)

theorem runPages_nonempty (m : Nat) :
    ∀ (pages : List DocumentSplitter.PageData) (st : DocumentSplitter.SplitState),
    reportsNonempty st.reports →
    reportsNonempty (DocumentSplitter.runPages m st pages).reports := by
  intro pages
  induction pages with
  | nil => exact fun st h => h
  | cons pd rest ih =>
    intro st h
    exact ih (DocumentSplitter.stepPage m st pd) (stepPage_nonempty m st pd h)

theorem flushReports_nonempty (st : DocumentSplitter.SplitState)
    (h : reportsNonempty st.reports) :
    reportsNonempty (DocumentSplitter.flushReports st) := by
  unfold DocumentSplitter.flushReports
  by_cases hc : st.current ≠ []
  · rw [if_pos hc]
    intro r hr
    simp only [List.mem_append, List.mem_singleton] at hr
    rcases hr with hr | hr
    · exact h r hr
    · rw [hr]; exact hc
  · rw [if_neg hc]; exact h

theorem validateReports_of_nonempty (rs : List DocumentSplitter.Report)
    (h : reportsNonempty rs) (hne : rs ≠ []) :
    DocumentSplitter.validateReports rs = Except.ok rs := by
  have hfilter : rs.filter (fun r => !r.pages.isEmpty) = rs := by
    rw [List.filter_eq_self]
    intro r hr
    simpa using h r hr
  have hemp : rs.isEmpty = false := by simpa using hne
  simp only [DocumentSplitter.validateReports]
  rw [hfilter, hemp]
  rfl

/-! ### C1: the partition property -/

/-- C1: for every non-empty input, concatenating the pages of all emitted
groups, in emission order, reproduces exactly the original page sequence —
no page omitted, duplicated, or reordered. -/
theorem splitIntoPatientReports_partition (m : Nat)
    (pages : List DocumentSplitter.PageData) (reports : List DocumentSplitter.Report)
    (h0 : pages ≠ [])
    (h : DocumentSplitter.splitIntoPatientReports m pages = Except.ok reports) :
    pagesOf reports = pages := by
  have hne : ¬pages.isEmpty = true := by simpa using h0
  unfold DocumentSplitter.splitIntoPatientReports at h
  rw [if_neg hne] at h
  have hflushpages :
      pagesOf (DocumentSplitter.flushReports
        (DocumentSplitter.runPages m ⟨[], [], none⟩ pages)) = pages := by
    rw [flushReports_pages]
    have h2 := runPages_pages m pages ⟨[], [], none⟩
    simpa [pagesOf] using h2
  have hnonempty : reportsNonempty (DocumentSplitter.flushReports
      (DocumentSplitter.runPages m ⟨[], [], none⟩ pages)) :=
    flushReports_nonempty _ (runPages_nonempty m pages _ (fun r hr => absurd hr (List.not_mem_nil r)))
  have hlistne : DocumentSplitter.flushReports
      (DocumentSplitter.runPages m ⟨[], [], none⟩ pages) ≠ [] := by
    intro hh
    apply h0
    rw [← hflushpages, hh]
    rfl
  rw [validateReports_of_nonempty _ hnonempty hlistne] at h
  rw [← Except.ok.inj h]
  exact hflushpages

/-- Witness for C1 on a one-page input. -/
theorem splitIntoPatientReports_partition_witness :
    pagesOf [DocumentSplitter.finalizeReport [⟨0, none, none⟩] 0] =
      [(⟨0, none, none⟩ : DocumentSplitter.PageData)] :=
  splitIntoPatientReports_partition 10 [⟨0, none, none⟩]
    [DocumentSplitter.finalizeReport [⟨0, none, none⟩] 0] (by decide) rfl

/-! ### C2: bounded group size -/


theorem stepIdentity_bounded (m : Nat) (st : DocumentSplitter.SplitState)
    (pd : DocumentSplitter.PageData) (h : reportsBounded m st.reports)
    (hc : st.current.length < m) :
    reportsBounded m (DocumentSplitter.stepIdentity st pd).reports ∧
      (DocumentSplitter.stepIdentity st pd).current.length < m := by
  unfold DocumentSplitter.stepIdentity
  by_cases h1 : DocumentSplitter.isDifferentPatient st.currentPatientInfo
      (DocumentSplitter.extractPatientInfo (some pd)) = true ∧ st.current ≠ []
  · rw [if_pos h1]
    refine ⟨?_, by simpa using Nat.lt_of_le_of_lt (Nat.zero_le _) hc⟩
    intro r hr
    simp only [List.mem_append, List.mem_singleton] at hr
    rcases hr with hr | hr
    · exact h r hr
    · rw [hr]
      refine ⟨?_, ?_, rfl⟩
      · have := List.length_pos.mpr h1.2
        simpa [DocumentSplitter.finalizeReport] using this
      · simpa [DocumentSplitter.finalizeReport] using Nat.le_of_lt hc
  · rw [if_neg h1]
    by_cases h0 : st.currentPatientInfo = none ∧
        DocumentSplitter.extractPatientInfo (some pd) ≠ none
    · rw [if_pos h0]; exact ⟨h, hc⟩
    · rw [if_neg h0]; exact ⟨h, hc⟩

theorem stepSafety_bounded (m : Nat) (st1 : DocumentSplitter.SplitState)
    (pd : DocumentSplitter.PageData) (hm : 1 ≤ m) (h : reportsBounded m st1.reports)
    (hc : st1.current.length < m) :
    reportsBounded m (DocumentSplitter.stepSafety m st1 pd).reports ∧
      (DocumentSplitter.stepSafety m st1 pd).current.length < m := by
  unfold DocumentSplitter.stepSafety
  by_cases h2 : m ≤ (st1.current ++ [pd]).length
  · rw [if_pos h2]
    refine ⟨?_, by simpa using hm⟩
    intro r hr
    simp only [List.mem_append, List.mem_singleton] at hr
    rcases hr with hr | hr
    · exact h r hr
    · rw [hr]
      refine ⟨?_, ?_, rfl⟩
      · simp [DocumentSplitter.finalizeReport]
      · simpa [DocumentSplitter.finalizeReport] using hc
  · rw [if_neg h2]
    refine ⟨h, ?_⟩
    rw [List.length_append, List.length_singleton] at h2
    push_neg at h2
    simpa using h2

theorem runPages_bounded (m : Nat) (hm : 1 ≤ m) :
    ∀ (pages : List DocumentSplitter.PageData) (st : DocumentSplitter.SplitState),
    reportsBounded m st.reports → st.current.length < m →
    reportsBounded m (DocumentSplitter.runPages m st pages).reports ∧
      (DocumentSplitter.runPages m st pages).current.length < m := by
  intro pages
  induction pages with
  | nil => exact fun st h hc => ⟨h, hc⟩
  | cons pd rest ih =>
    intro st h hc
    have h1 := stepIdentity_bounded m st pd h hc
    have h2 := stepSafety_bounded m (DocumentSplitter.stepIdentity st pd) pd hm h1.1 h1.2
    exact ih (DocumentSplitter.stepPage m st pd) h2.1 h2.2

theorem flushReports_bounded (m : Nat) (st : DocumentSplitter.SplitState)
    (h : reportsBounded m st.reports) (hc : st.current.length < m) :
    reportsBounded m (DocumentSplitter.flushReports st) := by
  unfold DocumentSplitter.flushReports
  by_cases hne : st.current ≠ []
  · rw [if_pos hne]
    intro r hr
    simp only [List.mem_append, List.mem_singleton] at hr
    rcases hr with hr | hr
    · exact h r hr
    · rw [hr]
      refine ⟨?_, ?_, rfl⟩
      · have := List.length_pos.mpr hne
        simpa [DocumentSplitter.finalizeReport] using this
      · simpa [DocumentSplitter.finalizeReport] using Nat.le_of_lt hc
  · rw [if_neg hne]; exact h

/-- C2: for every non-empty input and positive cap, every emitted group
has `1 ≤ pageCount ≤ maxPagesPerPatient`, and `pageCount` equals the
length of its pages list. -/
theorem splitIntoPatientReports_bounded (m : Nat)
    (pages : List DocumentSplitter.PageData) (reports : List DocumentSplitter.Report)
    (hm : 1 ≤ m) (h0 : pages ≠ [])
    (h : DocumentSplitter.splitIntoPatientReports m pages = Except.ok reports) :
    ∀ r ∈ reports, (1 ≤ r.pageCount ∧ r.pageCount ≤ m) ∧ r.pageCount = r.pages.length := by
  have hne : ¬pages.isEmpty = true := by simpa using h0
  unfold DocumentSplitter.splitIntoPatientReports at h
  rw [if_neg hne] at h
  have hnonempty : reportsNonempty (DocumentSplitter.flushReports
      (DocumentSplitter.runPages m ⟨[], [], none⟩ pages)) :=
    flushReports_nonempty _ (runPages_nonempty m pages _ (fun r hr => absurd hr (List.not_mem_nil r)))
  have hflushpages :
      pagesOf (DocumentSplitter.flushReports
        (DocumentSplitter.runPages m ⟨[], [], none⟩ pages)) = pages := by
    rw [flushReports_pages]
    have h2 := runPages_pages m pages ⟨[], [], none⟩
    simpa [pagesOf] using h2
  have hlistne : DocumentSplitter.flushReports
      (DocumentSplitter.runPages m ⟨[], [], none⟩ pages) ≠ [] := by
    intro hh
    apply h0
    rw [← hflushpages, hh]
    rfl
  rw [validateReports_of_nonempty _ hnonempty hlistne] at h
  have hrun := runPages_bounded m hm pages ⟨[], [], none⟩
    (fun r hr => absurd hr (List.not_mem_nil r)) (by simpa using hm)
  have hbound := flushReports_bounded m _ hrun.1 hrun.2
  rw [← Except.ok.inj h]
  intro r hr
  have := hbound r hr
  exact ⟨⟨this.1, this.2.1⟩, this.2.2⟩

/-- Witness for C2 on a one-page input with cap 10. -/
theorem splitIntoPatientReports_bounded_witness :
    (1 ≤ (DocumentSplitter.finalizeReport [⟨0, none, none⟩] 0).pageCount ∧
      (DocumentSplitter.finalizeReport [⟨0, none, none⟩] 0).pageCount ≤ 10) ∧
    (DocumentSplitter.finalizeReport [⟨0, none, none⟩] 0).pageCount =
      (DocumentSplitter.finalizeReport [⟨0, none, none⟩] 0).pages.length :=
  splitIntoPatientReports_bounded 10 [⟨0, none, none⟩]
    [DocumentSplitter.finalizeReport [⟨0, none, none⟩] 0] (by decide) (by decide) rfl
    (DocumentSplitter.finalizeReport [⟨0, none, none⟩] 0) (List.mem_singleton.mpr rfl)

/-! ### C6: errors exactly on empty input -/

/-- C6: `splitIntoPatientReports` fails exactly on the empty page sequence,
and then with the input-contract message; every non-empty input produces
at least one group, so the "no valid reports" defensive branch
(`_validateReports`) is unreachable for non-empty input. -/
theorem splitIntoPatientReports_error_iff (m : Nat)
    (pages : List DocumentSplitter.PageData) :
    (∀ e, DocumentSplitter.splitIntoPatientReports m pages = Except.error e →
      pages = [] ∧ e = "No page data provided for splitting") ∧
    (pages = [] → DocumentSplitter.splitIntoPatientReports m pages =
      Except.error "No page data provided for splitting") ∧
    (pages ≠ [] → ∃ reports, DocumentSplitter.splitIntoPatientReports m pages =
      Except.ok reports ∧ 1 ≤ reports.length) := by
  have hok : pages ≠ [] → ∃ reports,
      DocumentSplitter.splitIntoPatientReports m pages = Except.ok reports ∧
      1 ≤ reports.length := by
    intro h0
    have hne : ¬pages.isEmpty = true := by simpa using h0
    have hflushpages :
        pagesOf (DocumentSplitter.flushReports
          (DocumentSplitter.runPages m ⟨[], [], none⟩ pages)) = pages := by
      rw [flushReports_pages]
      have h2 := runPages_pages m pages ⟨[], [], none⟩
      simpa [pagesOf] using h2
    have hnonempty : reportsNonempty (DocumentSplitter.flushReports
        (DocumentSplitter.runPages m ⟨[], [], none⟩ pages)) :=
      flushReports_nonempty _
        (runPages_nonempty m pages _ (fun r hr => absurd hr (List.not_mem_nil r)))
    have hlistne : DocumentSplitter.flushReports
        (DocumentSplitter.runPages m ⟨[], [], none⟩ pages) ≠ [] := by
      intro hh
      apply h0
      rw [← hflushpages, hh]
      rfl
    refine ⟨DocumentSplitter.flushReports
      (DocumentSplitter.runPages m ⟨[], [], none⟩ pages), ?_, ?_⟩
    · unfold DocumentSplitter.splitIntoPatientReports
      rw [if_neg hne]
      exact validateReports_of_nonempty _ hnonempty hlistne
    · exact Nat.one_le_iff_ne_zero.mpr (fun hz => hlistne (List.eq_nil_of_length_eq_zero hz))
  refine ⟨?_, ?_, hok⟩
  · intro e he
    by_cases h0 : pages = []
    · subst h0
      refine ⟨rfl, ?_⟩
      have : DocumentSplitter.splitIntoPatientReports m
          ([] : List DocumentSplitter.PageData) =
          Except.error "No page data provided for splitting" := rfl
      rw [this] at he
      exact (Except.error.inj he).symm
    · obtain ⟨reports, hr, _⟩ := hok h0
      rw [hr] at he
      exact Except.noConfusion he
  · intro h0
    subst h0
    rfl

/-- Witness for C6: the empty input errors with the contract message, and
a concrete one-page input returns one group. -/
theorem splitIntoPatientReports_error_iff_witness :
    DocumentSplitter.splitIntoPatientReports 10 [] =
      Except.error "No page data provided for splitting" ∧
    ∃ reports, DocumentSplitter.splitIntoPatientReports 10 [⟨0, none, none⟩] =
      Except.ok reports ∧ 1 ≤ reports.length :=
  ⟨(splitIntoPatientReports_error_iff 10 []).2.1 rfl,
   (splitIntoPatientReports_error_iff 10 [⟨0, none, none⟩]).2.2 (by decide)⟩

/-! ### C10: a leading identity-less run forms its own group -/

theorem head?_append_left {α : Type} (l l' : List α) (h : l ≠ []) :
    (l ++ l').head? = l.head? := by
  cases l with
  | nil => exact absurd rfl h
  | cons a t => rfl

/-- Pages with no candidate only accumulate (anchor stays absent) while the
group stays below the cap. -/
theorem runPages_no_candidates (m : Nat) :
    ∀ (pages : List DocumentSplitter.PageData) (rs : List DocumentSplitter.Report)
      (cur : List DocumentSplitter.PageData),
    (∀ p ∈ pages, DocumentSplitter.extractPatientInfo (some p) = none) →
    cur.length + pages.length < m →
    DocumentSplitter.runPages m ⟨rs, cur, none⟩ pages = ⟨rs, cur ++ pages, none⟩ := by
  intro pages
  induction pages with
  | nil => intro rs cur _ _; simp [DocumentSplitter.runPages]
  | cons pd rest ih =>
    intro rs cur hall hlen
    have hpd : DocumentSplitter.extractPatientInfo (some pd) = none :=
      hall pd (List.mem_cons_self pd rest)
    have hstep : DocumentSplitter.stepPage m ⟨rs, cur, none⟩ pd = ⟨rs, cur ++ [pd], none⟩ := by
      have hlt : ¬m ≤ (cur ++ [pd]).length := by
        rw [List.length_append, List.length_singleton]
        simp only [List.length_cons] at hlen
        omega
      have hlt2 : cur.length + 1 < m := by
        simp only [List.length_cons] at hlen
        omega
      simp [DocumentSplitter.stepPage, DocumentSplitter.stepIdentity,
        DocumentSplitter.stepSafety, DocumentSplitter.isDifferentPatient, hpd, hlt, hlt2]
    show DocumentSplitter.runPages m (DocumentSplitter.stepPage m ⟨rs, cur, none⟩ pd) rest = _
    rw [hstep]
    rw [ih rs (cur ++ [pd]) (fun p hp => hall p (List.mem_cons_of_mem _ hp)) (by
      rw [List.length_append, List.length_singleton]
      simp only [List.length_cons] at hlen
      omega)]
    simp

/-- The boundary step: an identity-bearing page after a non-empty
identity-less accumulator emits the accumulator and starts a new group
with just that page. -/
theorem stepPage_boundary (m : Nat) (lead : List DocumentSplitter.PageData)
    (pd : DocumentSplitter.PageData) (c : DocumentSplitter.PatientInfo)
    (h4 : DocumentSplitter.extractPatientInfo (some pd) = some c)
    (hne : lead ≠ []) (hm : ¬m ≤ 1) :
    DocumentSplitter.stepPage m ⟨[], lead, none⟩ pd =
      ⟨[DocumentSplitter.finalizeReport lead 0], [pd], some c⟩ := by
  simp [DocumentSplitter.stepPage, DocumentSplitter.stepIdentity,
    DocumentSplitter.stepSafety, DocumentSplitter.isDifferentPatient, h4, hne, hm]

theorem stepIdentity_no_split (st : DocumentSplitter.SplitState)
    (pd : DocumentSplitter.PageData)
    (h : ¬(DocumentSplitter.isDifferentPatient st.currentPatientInfo
        (DocumentSplitter.extractPatientInfo (some pd)) = true ∧ st.current ≠ [])) :
    (DocumentSplitter.stepIdentity st pd).reports = st.reports ∧
    (DocumentSplitter.stepIdentity st pd).current = st.current := by
  unfold DocumentSplitter.stepIdentity
  rw [if_neg h]
  by_cases h0 : st.currentPatientInfo = none ∧
      DocumentSplitter.extractPatientInfo (some pd) ≠ none
  · rw [if_pos h0]; exact ⟨rfl, rfl⟩
  · rw [if_neg h0]; exact ⟨rfl, rfl⟩

/-- One loop step, seen from a non-empty accumulator: either a report whose
first page is the accumulator's first page is emitted, or the accumulator
extends and keeps its first page. -/
theorem stepPage_emits_or_extends (m : Nat) (st : DocumentSplitter.SplitState)
    (pd : DocumentSplitter.PageData) (h : st.current ≠ []) :
    (∃ r t, (DocumentSplitter.stepPage m st pd).reports = st.reports ++ r :: t ∧
      r.pages.head? = st.current.head?) ∨
    ((DocumentSplitter.stepPage m st pd).reports = st.reports ∧
      (DocumentSplitter.stepPage m st pd).current.head? = st.current.head? ∧
      (DocumentSplitter.stepPage m st pd).current ≠ []) := by
  by_cases h1 : DocumentSplitter.isDifferentPatient st.currentPatientInfo
      (DocumentSplitter.extractPatientInfo (some pd)) = true ∧ st.current ≠ []
  · left
    have hid : DocumentSplitter.stepIdentity st pd =
        ⟨st.reports ++ [DocumentSplitter.finalizeReport st.current st.reports.length], [],
         DocumentSplitter.extractPatientInfo (some pd)⟩ := by
      unfold DocumentSplitter.stepIdentity
      rw [if_pos h1]
    unfold DocumentSplitter.stepPage
    rw [hid]
    unfold DocumentSplitter.stepSafety
    by_cases h2 : m ≤ (([] : List DocumentSplitter.PageData) ++ [pd]).length
    · rw [if_pos h2]
      refine ⟨DocumentSplitter.finalizeReport st.current st.reports.length,
        [DocumentSplitter.finalizeReport ([] ++ [pd])
          (st.reports ++ [DocumentSplitter.finalizeReport st.current st.reports.length]).length],
        ?_, ?_⟩
      · simp
      · simp [DocumentSplitter.finalizeReport]
    · rw [if_neg h2]
      exact ⟨DocumentSplitter.finalizeReport st.current st.reports.length, [], by simp,
        by simp [DocumentSplitter.finalizeReport]⟩
  · have hid := stepIdentity_no_split st pd h1
    unfold DocumentSplitter.stepPage
    unfold DocumentSplitter.stepSafety
    by_cases h2 : m ≤ ((DocumentSplitter.stepIdentity st pd).current ++ [pd]).length
    · rw [if_pos h2]
      left
      refine ⟨DocumentSplitter.finalizeReport
        ((DocumentSplitter.stepIdentity st pd).current ++ [pd])
        (DocumentSplitter.stepIdentity st pd).reports.length, [], ?_, ?_⟩
      · rw [hid.1]
      · show ((DocumentSplitter.stepIdentity st pd).current ++ [pd]).head? = _
        rw [hid.2, head?_append_left _ _ h]
    · rw [if_neg h2]
      right
      refine ⟨hid.1, ?_, ?_⟩
      · show ((DocumentSplitter.stepIdentity st pd).current ++ [pd]).head? = _
        rw [hid.2, head?_append_left _ _ h]
      · show (DocumentSplitter.stepIdentity st pd).current ++ [pd] ≠ []
        simp

theorem stepPage_reports_mono (m : Nat) (st : DocumentSplitter.SplitState)
    (pd : DocumentSplitter.PageData) :
    ∃ t, (DocumentSplitter.stepPage m st pd).reports = st.reports ++ t := by
  have hid : ∃ t1, (DocumentSplitter.stepIdentity st pd).reports = st.reports ++ t1 := by
    unfold DocumentSplitter.stepIdentity
    by_cases h1 : DocumentSplitter.isDifferentPatient st.currentPatientInfo
        (DocumentSplitter.extractPatientInfo (some pd)) = true ∧ st.current ≠ []
    · rw [if_pos h1]; exact ⟨_, rfl⟩
    · rw [if_neg h1]
      by_cases h0 : st.currentPatientInfo = none ∧
          DocumentSplitter.extractPatientInfo (some pd) ≠ none
      · rw [if_pos h0]; exact ⟨[], (List.append_nil _).symm⟩
      · rw [if_neg h0]; exact ⟨[], (List.append_nil _).symm⟩
  obtain ⟨t1, ht1⟩ := hid
  unfold DocumentSplitter.stepPage DocumentSplitter.stepSafety
  by_cases h2 : m ≤ ((DocumentSplitter.stepIdentity st pd).current ++ [pd]).length
  · rw [if_pos h2]
    exact ⟨t1 ++ [_], by rw [ht1, List.append_assoc]⟩
  · rw [if_neg h2]
    exact ⟨t1, ht1⟩

theorem runPages_reports_mono (m : Nat) :
    ∀ (pages : List DocumentSplitter.PageData) (st : DocumentSplitter.SplitState),
    ∃ t, (DocumentSplitter.runPages m st pages).reports = st.reports ++ t := by
  intro pages
  induction pages with
  | nil => exact fun st => ⟨[], (List.append_nil _).symm⟩
  | cons pd rest ih =>
    intro st
    obtain ⟨t1, ht1⟩ := stepPage_reports_mono m st pd
    obtain ⟨t2, ht2⟩ := ih (DocumentSplitter.stepPage m st pd)
    exact ⟨t1 ++ t2, by
      show (DocumentSplitter.runPages m (DocumentSplitter.stepPage m st pd) rest).reports = _
      rw [ht2, ht1, List.append_assoc]⟩

theorem flushReports_mono (st : DocumentSplitter.SplitState) :
    ∃ t, DocumentSplitter.flushReports st = st.reports ++ t := by
  unfold DocumentSplitter.flushReports
  by_cases h : st.current ≠ []
  · rw [if_pos h]; exact ⟨_, rfl⟩
  · rw [if_neg h]; exact ⟨[], (List.append_nil _).symm⟩

/-- From any state with a non-empty accumulator, the remaining run plus the
final flush emits at least one further report, and the first of those
reports starts with the accumulator's first page. -/
theorem runPages_flush_emits (m : Nat) :
    ∀ (pages : List DocumentSplitter.PageData) (st : DocumentSplitter.SplitState),
    st.current ≠ [] →
    ∃ r t, DocumentSplitter.flushReports (DocumentSplitter.runPages m st pages) =
      st.reports ++ r :: t ∧ r.pages.head? = st.current.head? := by
  intro pages
  induction pages with
  | nil =>
    intro st h
    refine ⟨DocumentSplitter.finalizeReport st.current st.reports.length, [], ?_, ?_⟩
    · show DocumentSplitter.flushReports st = _
      unfold DocumentSplitter.flushReports
      rw [if_pos h]
    · simp [DocumentSplitter.finalizeReport]
  | cons pd rest ih =>
    intro st h
    have hrun : DocumentSplitter.runPages m st (pd :: rest) =
        DocumentSplitter.runPages m (DocumentSplitter.stepPage m st pd) rest := rfl
    rcases stepPage_emits_or_extends m st pd h with ⟨r, t, hrep, hhead⟩ | ⟨hrep, hhead, hne⟩
    · obtain ⟨t2, ht2⟩ := runPages_reports_mono m rest (DocumentSplitter.stepPage m st pd)
      obtain ⟨t3, ht3⟩ := flushReports_mono (DocumentSplitter.runPages m
        (DocumentSplitter.stepPage m st pd) rest)
      refine ⟨r, t ++ (t2 ++ t3), ?_, hhead⟩
      rw [hrun, ht3, ht2, hrep]
      simp [List.append_assoc]
    · obtain ⟨r, t, hflush, hh⟩ := ih (DocumentSplitter.stepPage m st pd) hne
      refine ⟨r, t, ?_, ?_⟩
      · rw [hrun, hflush, hrep]
      · rw [hh, hhead]

/-- C10: when the first `k` pages (`1 ≤ k < maxPagesPerPatient`) each yield
no identity candidate and the next page yields one, those `k` pages are
emitted as a complete group of their own with `hasPatientData = false`,
and the identity-bearing page starts the next emitted group — it is never
merged with the identity-less run. -/
theorem leading_identityless_group (m : Nat) (lead : List DocumentSplitter.PageData)
    (pd : DocumentSplitter.PageData) (c : DocumentSplitter.PatientInfo)
    (rest : List DocumentSplitter.PageData) (reports : List DocumentSplitter.Report)
    (h1 : lead ≠ []) (h2 : lead.length < m)
    (h3 : ∀ p ∈ lead, DocumentSplitter.extractPatientInfo (some p) = none)
    (h4 : DocumentSplitter.extractPatientInfo (some pd) = some c)
    (h5 : DocumentSplitter.splitIntoPatientReports m (lead ++ pd :: rest) =
      Except.ok reports) :
    ∃ r2 t, reports = DocumentSplitter.finalizeReport lead 0 :: r2 :: t ∧
      (DocumentSplitter.finalizeReport lead 0).hasPatientData = false ∧
      r2.pages.head? = some pd := by
  have hlead1 : 1 ≤ lead.length := List.length_pos.mpr h1
  have hm1 : ¬m ≤ 1 := by omega
  have hpagesne : lead ++ pd :: rest ≠ [] := by
    intro hh
    exact h1 (List.eq_nil_of_length_eq_zero (by
      have := congrArg List.length hh
      rw [List.length_append] at this
      simp only [List.length_cons, List.length_nil] at this
      omega))
  have hne : ¬(lead ++ pd :: rest).isEmpty = true := by simp
  unfold DocumentSplitter.splitIntoPatientReports at h5
  rw [if_neg hne] at h5
  have hsplitrun : DocumentSplitter.runPages m ⟨[], [], none⟩ (lead ++ pd :: rest) =
      DocumentSplitter.runPages m ⟨[DocumentSplitter.finalizeReport lead 0], [pd], some c⟩
        rest := by
    show (lead ++ pd :: rest).foldl (DocumentSplitter.stepPage m) ⟨[], [], none⟩ = _
    rw [List.foldl_append]
    have hlead : DocumentSplitter.runPages m ⟨[], [], none⟩ lead = ⟨[], lead, none⟩ := by
      have := runPages_no_candidates m lead [] [] h3 (by simpa using h2)
      simpa using this
    show DocumentSplitter.runPages m
      (DocumentSplitter.runPages m ⟨[], [], none⟩ lead) (pd :: rest) = _
    rw [hlead]
    show DocumentSplitter.runPages m
      (DocumentSplitter.stepPage m ⟨[], lead, none⟩ pd) rest = _
    rw [stepPage_boundary m lead pd c h4 h1 hm1]
  obtain ⟨r2, t, hflush, hhead⟩ := runPages_flush_emits m rest
    ⟨[DocumentSplitter.finalizeReport lead 0], [pd], some c⟩ (by simp)
  have hlist : DocumentSplitter.flushReports
      (DocumentSplitter.runPages m ⟨[], [], none⟩ (lead ++ pd :: rest)) =
      DocumentSplitter.finalizeReport lead 0 :: r2 :: t := by
    rw [hsplitrun, hflush]
    rfl
  have hnonempty : reportsNonempty (DocumentSplitter.flushReports
      (DocumentSplitter.runPages m ⟨[], [], none⟩ (lead ++ pd :: rest))) :=
    flushReports_nonempty _
      (runPages_nonempty m _ _ (fun r hr => absurd hr (List.not_mem_nil r)))
  have hlistne : DocumentSplitter.flushReports
      (DocumentSplitter.runPages m ⟨[], [], none⟩ (lead ++ pd :: rest)) ≠ [] := by
    rw [hlist]
    exact List.cons_ne_nil _ _
  rw [validateReports_of_nonempty _ hnonempty hlistne] at h5
  have hreports := Except.ok.inj h5
  refine ⟨r2, t, ?_, ?_, ?_⟩
  · rw [← hreports, hlist]
  · show (lead.any fun p => (DocumentSplitter.extractPatientInfo (some p)).isSome) = false
    rw [List.any_eq_false]
    intro p hp
    rw [h3 p hp]
    simp
  · rw [hhead]
    rfl

/-- Witness for C10: one identity-less page followed by one identity-bearing
page under cap 10 yields exactly two groups, split at the boundary. -/
theorem leading_identityless_group_witness :
    ∃ r2 t,
      [DocumentSplitter.finalizeReport [⟨0, none, none⟩] 0,
       DocumentSplitter.finalizeReport [⟨1, some [("name", "John")], none⟩] 1] =
        DocumentSplitter.finalizeReport [⟨0, none, none⟩] 0 :: r2 :: t ∧
      (DocumentSplitter.finalizeReport [(⟨0, none, none⟩ :
          DocumentSplitter.PageData)] 0).hasPatientData = false ∧
      r2.pages.head? = some ⟨1, some [("name", "John")], none⟩ :=
  leading_identityless_group 10 [⟨0, none, none⟩] ⟨1, some [("name", "John")], none⟩
    ⟨some "John", none, none⟩ []
    [DocumentSplitter.finalizeReport [⟨0, none, none⟩] 0,
     DocumentSplitter.finalizeReport [⟨1, some [("name", "John")], none⟩] 1]
    (by decide) (by decide) (by decide) rfl rfl
